import Mathlib

/-!
Shallow embedding of the `vscode-secure-notes` core (the encrypted note
store with session key management and cloud-sync merge logic) and proofs
about the claims made by its specification.

Sources embedded:
* `src/core/Encryption.ts` — `EncryptionService` (session user/passwords,
  encrypt/decrypt) and `SyncService` (`uploadToCloud`, `smartMerge`).
* `src/core/NotesManager.ts` — `NotesManager` (loadStorage, folder and note
  CRUD operations).

Modelling conventions:
* The CryptoJS AES primitive is external library code; it is modelled as a
  perfectly invertible cipher.  A `Ciphertext` records the nonce (AES salt,
  random per call), the key used and the plaintext; decrypting with the
  right key recovers the plaintext, decrypting with a wrong key yields the
  empty string (the library's "wrong key" outcome that the service layer
  turns into a thrown error).
* TypeScript exceptions become `Except NoteError` results.
* The mutable per-user document file becomes explicit state passing: every
  operation that reads the file takes the loaded `EncryptedStorage` and
  every operation that writes returns the new one.  `Date.now()` and the
  per-call AES nonces are passed as explicit arguments.
* The outcome of `JSON.parse` on the document file is abstracted by
  `FileContent` (missing file / unparseable content / parsed value), since
  the JSON grammar itself is not at issue in any claim.
-/

/-- Model of a CryptoJS AES ciphertext string: the random salt (nonce), the
key it was produced under and the enclosed plaintext, carried opaquely. -/
structure Ciphertext where
  nonce : Nat
  key : String
  text : String
deriving DecidableEq, Repr

/-- Model of `CryptoJS.AES.encrypt(text, password).toString()`. -/
def aesEncrypt (text password : String) (nonce : Nat) : Ciphertext :=
  ⟨nonce, password, text⟩

/-- Model of `CryptoJS.AES.decrypt(c, password).toString(CryptoJS.enc.Utf8)`:
the right key recovers the plaintext, a wrong key yields `""`. -/
def aesDecrypt (c : Ciphertext) (password : String) : String :=
  if c.key = password then c.text else ""

/-- The thrown errors of the core (messages in the source are Chinese
strings; constructors are named after the spec's error taxonomy). -/
inductive NoteError where
  | noPassword
  | decryptionFailed
  | duplicateFolder
  | duplicateTitle
deriving DecidableEq, Repr

/-- The static fields of `EncryptionService`: the current user and the
in-memory `Map` from username to password. -/
structure EncryptionState where
  currentUser : Option String
  userPasswords : List (String × String)
deriving DecidableEq, Repr

/-- Source `this.userPasswords.get(u)` on the assoc-list model of the `Map`. -/
def lookupPassword : List (String × String) → String → Option String
  | [], _ => none
  | p :: rest, u => if p.1 = u then some p.2 else lookupPassword rest u

/-- Source `this.userPasswords.set(u, pw)` on the assoc-list model of the `Map`. -/
def storePassword : List (String × String) → String → String → List (String × String)
  | [], u, pw => [(u, pw)]
  | p :: rest, u, pw => if p.1 = u then (u, pw) :: rest else p :: storePassword rest u pw

/-- Source `this.userPasswords.delete(u)`. -/
def deletePassword : List (String × String) → String → List (String × String)
  | [], _ => []
  | p :: rest, u => if p.1 = u then rest else p :: deletePassword rest u

/-- Source `EncryptionService.setCurrentUser`. -/
def EncryptionService.setCurrentUser (st : EncryptionState) (username password : String) :
    EncryptionState :=
  ⟨some username, storePassword st.userPasswords username password⟩

/-- Source `EncryptionService.getCurrentUser`. -/
def EncryptionService.getCurrentUser (st : EncryptionState) : Option String :=
  st.currentUser

/-- Source `EncryptionService.hasPassword`. -/
def EncryptionService.hasPassword (st : EncryptionState) : Bool :=
  match st.currentUser with
  | none => false
  | some u => (lookupPassword st.userPasswords u).isSome

/-- Source `EncryptionService.encrypt` (throws when no current user/password). -/
def EncryptionService.encrypt (st : EncryptionState) (text : String) (nonce : Nat) :
    Except NoteError Ciphertext :=
  match st.currentUser with
  | none => .error .noPassword
  | some u =>
    match lookupPassword st.userPasswords u with
    | none => .error .noPassword
    | some password => .ok (aesEncrypt text password nonce)

/-- Source `EncryptionService.decrypt` (throws when no current user/password, and
throws `解密失败` when the decrypted string is empty). -/
def EncryptionService.decrypt (st : EncryptionState) (c : Ciphertext) :
    Except NoteError String :=
  match st.currentUser with
  | none => .error .noPassword
  | some u =>
    match lookupPassword st.userPasswords u with
    | none => .error .noPassword
    | some password =>
      let decrypted := aesDecrypt c password
      if decrypted = "" then .error .decryptionFailed else .ok decrypted

/-- Source `EncryptionService.logout`. -/
def EncryptionService.logout (st : EncryptionState) : EncryptionState :=
  match st.currentUser with
  | none => st
  | some u => ⟨none, deletePassword st.userPasswords u⟩

/-- Source `Folder` from `src/models/Note.ts`. -/
structure Folder where
  name : String
  createdAt : Nat
deriving DecidableEq, Repr

/-- Source `EncryptedNote`: `folder` is `Option String` because a legacy note
object may lack the field entirely (JS `undefined`), which the read path
treats like the empty string. -/
structure EncryptedNote where
  id : String
  folder : Option String
  encryptedTitle : Ciphertext
  encryptedContent : Ciphertext
  createdAt : Nat
  updatedAt : Nat
deriving DecidableEq, Repr

/-- Decrypted `Note` view. -/
structure Note where
  id : String
  folder : String
  title : String
  content : String
  createdAt : Nat
  updatedAt : Nat
deriving DecidableEq, Repr

/-- The persisted per-user document. -/
structure EncryptedStorage where
  folders : List Folder
  notes : List EncryptedNote
deriving DecidableEq, Repr

/-- Top-level shape of a successfully parsed document file: a bare array of
note objects (legacy format) or a storage object. -/
inductive ParsedJson where
  | arr (notes : List EncryptedNote)
  | obj (storage : EncryptedStorage)
deriving DecidableEq, Repr

/-- State of the per-user document file as seen by `loadStorage`: absent,
present but unparseable (`JSON.parse` throws), or parsed. -/
inductive FileContent where
  | missing
  | malformed
  | parsed (j : ParsedJson)
deriving DecidableEq, Repr

/-- Source `NotesManager.loadStorage`: missing file yields the empty document; a
thrown parse error is caught, logged and also yields the empty document; a
bare array is wrapped as `{folders: [], notes: array}`. -/
def NotesManager.loadStorage : FileContent → EncryptedStorage
  | .missing => ⟨[], []⟩
  | .malformed => ⟨[], []⟩
  | .parsed (.arr ns) => ⟨[], ns⟩
  | .parsed (.obj s) => s

/-- Fallback `encrypted.folder || 'default'`: JS falsy values (`undefined`, `""`)
fall back to `"default"`. -/
def viewFolder : Option String → String
  | none => "default"
  | some f => if f = "" then "default" else f

/-- One iteration of the decrypt loops in `getAllNotes` / `getNote`:
decrypt title and content, `none` when either throws. -/
def decryptNote (st : EncryptionState) (e : EncryptedNote) : Option Note :=
  match EncryptionService.decrypt st e.encryptedTitle,
        EncryptionService.decrypt st e.encryptedContent with
  | .ok t, .ok c => some ⟨e.id, viewFolder e.folder, t, c, e.createdAt, e.updatedAt⟩
  | _, _ => none

/-- Source `NotesManager.getFolders`. -/
def NotesManager.getFolders (s : EncryptedStorage) : List Folder :=
  s.folders

/-- Source `NotesManager.createFolder` (throws `文件夹已存在` on duplicate name). -/
def NotesManager.createFolder (s : EncryptedStorage) (name : String) (now : Nat) :
    Except NoteError EncryptedStorage :=
  if s.folders.any (fun f => f.name = name) then .error .duplicateFolder
  else .ok ⟨s.folders ++ [⟨name, now⟩], s.notes⟩

/-- Source `NotesManager.deleteFolder`: removes the folder entry and cascades to
every note whose stored `folder` field equals the name. -/
def NotesManager.deleteFolder (s : EncryptedStorage) (name : String) : EncryptedStorage :=
  ⟨s.folders.filter (fun f => f.name ≠ name),
   s.notes.filter (fun n => n.folder ≠ some name)⟩

/-- Source `NotesManager.getAllNotes`: `[]` without an active key; otherwise each
note is decrypted, and a note whose decryption throws is skipped. -/
def NotesManager.getAllNotes (st : EncryptionState) (s : EncryptedStorage) : List Note :=
  if EncryptionService.hasPassword st then s.notes.filterMap (decryptNote st)
  else []

/-- Source `storage.notes.find(n => n.id === id)`. -/
def findEncNoteById : List EncryptedNote → String → Option EncryptedNote
  | [], _ => none
  | n :: rest, i => if n.id = i then some n else findEncNoteById rest i

/-- Source `NotesManager.getNote`: `null` without an active key or when the id is
absent; a present note whose decryption throws escalates to an error. -/
def NotesManager.getNote (st : EncryptionState) (s : EncryptedStorage) (id : String) :
    Except NoteError (Option Note) :=
  if EncryptionService.hasPassword st then
    match findEncNoteById s.notes id with
    | none => .ok none
    | some e =>
      match decryptNote st e with
      | some n => .ok (some n)
      | none => .error .decryptionFailed
  else .ok none

/-- Source `existingNotes.find(n => n.folder === folder && n.title === title)`
turned into a boolean. -/
def hasDuplicateTitle : List Note → String → String → Bool
  | [], _, _ => false
  | n :: rest, folder, title =>
    if n.folder = folder ∧ n.title = title then true
    else hasDuplicateTitle rest folder title

/-- Source `NotesManager.createNote`.  `now` stands for `Date.now()` (used for the
id and both timestamps); `n1`, `n2` are the AES nonces of the two
encryptions.  Returns the decrypted note together with the saved storage. -/
def NotesManager.createNote (st : EncryptionState) (s : EncryptedStorage)
    (title content folder : String) (now n1 n2 : Nat) :
    Except NoteError (Note × EncryptedStorage) :=
  if EncryptionService.hasPassword st then
    let existingNotes := NotesManager.getAllNotes st s
    if hasDuplicateTitle existingNotes folder title then .error .duplicateTitle
    else
      match EncryptionService.encrypt st title n1,
            EncryptionService.encrypt st content n2 with
      | .ok ct, .ok cc =>
        let note : Note := ⟨toString now, folder, title, content, now, now⟩
        .ok (note, ⟨s.folders, s.notes ++ [⟨toString now, some folder, ct, cc, now, now⟩]⟩)
      | _, _ => .error .noPassword
  else .error .noPassword

/-- Mutation of the first note found by `storage.notes.find(n => n.id === id)`. -/
def replaceFirstNote : List EncryptedNote → String → (EncryptedNote → EncryptedNote) →
    List EncryptedNote
  | [], _, _ => []
  | n :: rest, i, f => if n.id = i then f n :: rest else n :: replaceFirstNote rest i f

/-- Source `NotesManager.updateNote`: throws without an active key; silent no-op
when the id is not found; otherwise re-encrypts and bumps `updatedAt`. -/
def NotesManager.updateNote (st : EncryptionState) (s : EncryptedStorage)
    (id title content : String) (now n1 n2 : Nat) :
    Except NoteError EncryptedStorage :=
  if EncryptionService.hasPassword st then
    match findEncNoteById s.notes id with
    | none => .ok s
    | some _ =>
      match EncryptionService.encrypt st title n1,
            EncryptionService.encrypt st content n2 with
      | .ok ct, .ok cc =>
        .ok ⟨s.folders,
             replaceFirstNote s.notes id
               (fun n => ⟨n.id, n.folder, ct, cc, n.createdAt, now⟩)⟩
      | _, _ => .error .noPassword
  else .error .noPassword

/-- Source `NotesManager.deleteNote`: no key check in the source — filters by id
and saves unconditionally. -/
def NotesManager.deleteNote (s : EncryptedStorage) (id : String) : EncryptedStorage :=
  ⟨s.folders, s.notes.filter (fun n => n.id ≠ id)⟩

/-- One `createNote` call's arguments: title, content, folder, `Date.now()`
and the two AES nonces. -/
structure CreateCall where
  title : String
  content : String
  folder : String
  now : Nat
  n1 : Nat
  n2 : Nat
deriving DecidableEq, Repr

/-- A sequence of `createNote` calls against the store: a call that throws
leaves the stored document unchanged. -/
def runCreates (st : EncryptionState) : EncryptedStorage → List CreateCall → EncryptedStorage
  | s, [] => s
  | s, c :: rest =>
    match NotesManager.createNote st s c.title c.content c.folder c.now c.n1 c.n2 with
    | .ok r => runCreates st r.2 rest
    | .error _ => runCreates st s rest

/-- Source `SyncProvider` enum from `SyncService`. -/
inductive SyncProvider where
  | disabled
  | webdav
  | github
  | custom
deriving DecidableEq, Repr

/-- The fields of `SyncConfig` that `uploadToCloud` consults. -/
structure SyncConfig where
  provider : SyncProvider
  url : Option String
  username : Option String
  password : Option String
  token : Option String
deriving DecidableEq, Repr

/-- Outcome of the backend HTTP interaction inside the `try` block:
`respOk` — `fetch` returned with `response.ok`; `respFail` — `fetch`
returned a non-ok, non-404 response (the code throws); `netErr` — `fetch`
itself (or the local file read) threw. -/
inductive TransportOutcome where
  | respOk
  | respFail
  | netErr
deriving DecidableEq, Repr

/-- Sync-layer errors (thrown inside the `try` of `uploadToCloud`). -/
inductive SyncError where
  | configIncomplete
  | transport
deriving DecidableEq, Repr

/-- The provider dispatch inside `uploadToCloud`'s `try` block:
`uploadToWebDAV` / `uploadToGitHub` throw on incomplete config or failed
response and return `true` on success; the custom backend is a stub that
returns `false`; the `default` branch returns `false`. -/
def uploadBackend (cfg : SyncConfig) (outcome : TransportOutcome) : Except SyncError Bool :=
  match cfg.provider with
  | .disabled => .ok false
  | .webdav =>
    if cfg.url.isNone ∨ cfg.username.isNone ∨ cfg.password.isNone then
      .error .configIncomplete
    else
      match outcome with
      | .respOk => .ok true
      | .respFail => .error .transport
      | .netErr => .error .transport
  | .github =>
    if cfg.url.isNone ∨ cfg.token.isNone then .error .configIncomplete
    else
      match outcome with
      | .respOk => .ok true
      | .respFail => .error .transport
      | .netErr => .error .transport
  | .custom => .ok false

/-- Source `SyncService.uploadToCloud`, as a function of the configuration, the
`syncInProgress` flag on entry and the transport outcome.  Returns the
result delivered to the caller (an `Except` so that "raises" is statable)
and the flag on exit.  The source catches every error from the `try` block,
shows a message and returns `false`; the `finally` clears the flag. -/
def SyncService.uploadToCloud (cfg : SyncConfig) (syncInProgress : Bool)
    (outcome : TransportOutcome) : Except SyncError Bool × Bool :=
  if cfg.provider = .disabled then (.ok false, syncInProgress)
  else if syncInProgress then (.ok false, syncInProgress)
  else
    match uploadBackend cfg outcome with
    | .ok b => (.ok b, false)
    | .error _ => (.ok false, false)

/-- Source `mergedNotesMap.get(k)` on the insertion-order assoc-list model of the
JS `Map`. -/
def mapGet : List (String × EncryptedNote) → String → Option EncryptedNote
  | [], _ => none
  | p :: rest, k => if p.1 = k then some p.2 else mapGet rest k

/-- Source `mergedNotesMap.set(k, v)`: replaces in place, else appends. -/
def mapSet : List (String × EncryptedNote) → String → EncryptedNote →
    List (String × EncryptedNote)
  | [], k, v => [(k, v)]
  | p :: rest, k, v => if p.1 = k then (k, v) :: rest else p :: mapSet rest k v

/-- Source `localData.notes.forEach(note => mergedNotesMap.set(note.id, note))`. -/
def seedLocalNotes (m : List (String × EncryptedNote)) (ns : List EncryptedNote) :
    List (String × EncryptedNote) :=
  ns.foldl (fun m n => mapSet m n.id n) m

/-- Body of `cloudData.notes.forEach(cloudNote => ...)`: replace the map
entry when absent or when the cloud note's `updatedAt` is strictly
greater (`cloudNote.updatedAt > localNote.updatedAt`). -/
def mergeStep (m : List (String × EncryptedNote)) (cloudNote : EncryptedNote) :
    List (String × EncryptedNote) :=
  match mapGet m cloudNote.id with
  | none => mapSet m cloudNote.id cloudNote
  | some localNote =>
    if localNote.updatedAt < cloudNote.updatedAt then mapSet m cloudNote.id cloudNote
    else m

/-- Source `cloudData.notes.forEach(...)` over the whole cloud note list. -/
def mergeCloudNotes (m : List (String × EncryptedNote)) (ns : List EncryptedNote) :
    List (String × EncryptedNote) :=
  ns.foldl mergeStep m

/-- Source `allFolders.add(x)` on the insertion-order list model of the JS `Set`. -/
def addFolderName (s : List String) (x : String) : List String :=
  if x ∈ s then s else s ++ [x]

/-- Steps 3–5 of `SyncService.smartMerge`: the merged document built from
the parsed local and cloud documents (`now` is the `Date.now()` used to
stamp every merged folder). -/
def SyncService.smartMerge (localData cloudData : EncryptedStorage) (now : Nat) :
    EncryptedStorage :=
  let mergedNotesMap := mergeCloudNotes (seedLocalNotes [] localData.notes) cloudData.notes
  let allFolders :=
    (cloudData.folders.map (fun f => f.name)).foldl addFolderName
      ((localData.folders.map (fun f => f.name)).foldl addFolderName [])
  ⟨allFolders.map (fun name => ⟨name, now⟩), mergedNotesMap.map (fun p => p.2)⟩

/-! Section Shared concrete inputs for witnesses and counterexamples -/

/-- A session in which user `"u"` is logged in with password `"k"`. -/
def demoState : EncryptionState := ⟨some "u", [("u", "k")]⟩

/-- The logged-out session. -/
def demoLockedState : EncryptionState := ⟨none, []⟩

/-- One stored note, encrypted under `"k"`. -/
def demoEncNote : EncryptedNote := ⟨"1", some "d", ⟨1, "k", "t"⟩, ⟨2, "k", "c"⟩, 1, 1⟩

/-! Section Basic lemmas -/

theorem findEncNoteById_mem {ns : List EncryptedNote} {i : String} {e : EncryptedNote}
    (h : findEncNoteById ns i = some e) : e ∈ ns := by
  induction ns with
  | nil => exact absurd h (by simp [findEncNoteById])
  | cons n rest ih =>
    unfold findEncNoteById at h
    by_cases hn : n.id = i
    · simp [hn] at h
      exact h ▸ List.mem_cons_self n rest
    · simp [hn] at h
      exact List.mem_cons_of_mem n (ih h)

theorem hasPassword_of_active {st : EncryptionState} {u k : String}
    (hu : st.currentUser = some u) (hk : lookupPassword st.userPasswords u = some k) :
    EncryptionService.hasPassword st = true := by
  simp [EncryptionService.hasPassword, hu, hk]

theorem encrypt_of_active {st : EncryptionState} {u k : String}
    (hu : st.currentUser = some u) (hk : lookupPassword st.userPasswords u = some k)
    (text : String) (nonce : Nat) :
    EncryptionService.encrypt st text nonce = .ok ⟨nonce, k, text⟩ := by
  simp [EncryptionService.encrypt, hu, hk, aesEncrypt]

theorem decrypt_of_active {st : EncryptionState} {u k : String}
    (hu : st.currentUser = some u) (hk : lookupPassword st.userPasswords u = some k)
    {c : Ciphertext} (hkey : c.key = k) (htext : c.text ≠ "") :
    EncryptionService.decrypt st c = .ok c.text := by
  simp [EncryptionService.decrypt, hu, hk, aesDecrypt, hkey, htext]

theorem decryptNote_of_active {st : EncryptionState} {u k : String}
    (hu : st.currentUser = some u) (hk : lookupPassword st.userPasswords u = some k)
    {e : EncryptedNote} (htk : e.encryptedTitle.key = k) (hck : e.encryptedContent.key = k)
    (htt : e.encryptedTitle.text ≠ "") (hct : e.encryptedContent.text ≠ "") :
    decryptNote st e =
      some ⟨e.id, viewFolder e.folder, e.encryptedTitle.text, e.encryptedContent.text,
            e.createdAt, e.updatedAt⟩ := by
  unfold decryptNote
  rw [decrypt_of_active hu hk htk htt, decrypt_of_active hu hk hck hct]

/-! Section C1: encryption round-trip -/

/-- C1 (amended): for an active session with key `k`, decrypting the result
of encrypting a **nonempty** plaintext `s` returns `s`.  (For `s = ""` the
decryption path throws, because the source treats an empty decryption
result as a wrong-key failure.) -/
theorem claim_C1 (st : EncryptionState) (u k s : String) (n : Nat)
    (hu : st.currentUser = some u) (hk : lookupPassword st.userPasswords u = some k)
    (hs : s ≠ "") :
    (EncryptionService.encrypt st s n).bind (EncryptionService.decrypt st) = .ok s := by
  rw [encrypt_of_active hu hk s n]
  show EncryptionService.decrypt st ⟨n, k, s⟩ = .ok s
  exact decrypt_of_active hu hk rfl hs

/-- C1 witness: the round-trip at the concrete session and plaintext. -/
theorem claim_C1_witness :
    (EncryptionService.encrypt demoState "hello" 0).bind
      (EncryptionService.decrypt demoState) = .ok "hello" :=
  claim_C1 demoState "u" "k" "hello" 0 rfl rfl (by decide)

/-- C1 counterexample: for the empty plaintext the round-trip does not
return the plaintext — `decrypt` throws the wrong-key error. -/
theorem claim_C1_counterexample :
    (EncryptionService.encrypt demoState "" 0).bind (EncryptionService.decrypt demoState) =
        .error .decryptionFailed ∧
    (EncryptionService.encrypt demoState "" 0).bind (EncryptionService.decrypt demoState) ≠
        .ok "" :=
  ⟨rfl, fun h => Except.noConfusion h⟩

/-! Section C3: malformed document file -/

/-- C3 counterexample: on an unparseable document file `loadStorage`
returns exactly the empty document (the claim asserts it does not). -/
theorem claim_C3_counterexample :
    ¬ (NotesManager.loadStorage FileContent.malformed ≠ EncryptedStorage.mk [] []) := by
  decide

/-- C3 (amended): an unparseable document file is silently swallowed — the
parse error is caught and logged and `loadStorage` returns the empty
document, exactly as for a missing file; no error reaches the caller. -/
theorem claim_C3 :
    NotesManager.loadStorage FileContent.malformed = ⟨[], []⟩ ∧
    NotesManager.loadStorage FileContent.missing = ⟨[], []⟩ :=
  ⟨rfl, rfl⟩

/-! Section C8: legacy bare-array document -/

/-- C8 (confirmed): a document file parsing to a bare top-level array is
loaded as the document with no folders and exactly that array as notes. -/
theorem claim_C8 (ns : List EncryptedNote) :
    NotesManager.loadStorage (.parsed (.arr ns)) = ⟨[], ns⟩ :=
  rfl

/-! Section C4: fail-closed without an active key -/

/-- C4 counterexample: with no active key (`hasPassword` is false),
`deleteNote` still mutates the stored document — it removes the note. -/
theorem claim_C4_counterexample :
    EncryptionService.hasPassword demoLockedState = false ∧
    NotesManager.deleteNote ⟨[], [demoEncNote]⟩ "1" ≠ ⟨[], [demoEncNote]⟩ ∧
    NotesManager.deleteFolder ⟨[], [demoEncNote]⟩ "d" ≠ ⟨[], [demoEncNote]⟩ := by
  decide

/-- C4 (amended): without an active key the read operations return
empty/absent results and `createNote`/`updateNote` fail without mutating,
but `deleteNote` and `deleteFolder` perform no key check at all: they
filter and save the document unconditionally. -/
theorem claim_C4 (st : EncryptionState) (s : EncryptedStorage)
    (h : EncryptionService.hasPassword st = false) :
    NotesManager.getAllNotes st s = [] ∧
    (∀ id, NotesManager.getNote st s id = .ok none) ∧
    (∀ t c f now n1 n2, NotesManager.createNote st s t c f now n1 n2 = .error .noPassword) ∧
    (∀ id t c now n1 n2, NotesManager.updateNote st s id t c now n1 n2 = .error .noPassword) ∧
    (∀ id, NotesManager.deleteNote s id =
      ⟨s.folders, s.notes.filter (fun n => n.id ≠ id)⟩) ∧
    (∀ name, NotesManager.deleteFolder s name =
      ⟨s.folders.filter (fun f => f.name ≠ name),
       s.notes.filter (fun n => n.folder ≠ some name)⟩) := by
  refine ⟨?_, ?_, ?_, ?_, fun id => rfl, fun name => rfl⟩
  · simp [NotesManager.getAllNotes, h]
  · intro id
    simp [NotesManager.getNote, h]
  · intro t c f now n1 n2
    simp [NotesManager.createNote, h]
  · intro id t c now n1 n2
    simp [NotesManager.updateNote, h]

/-- C4 witness: the amended theorem at the logged-out session. -/
theorem claim_C4_witness :
    NotesManager.getAllNotes demoLockedState ⟨[], [demoEncNote]⟩ = [] :=
  (claim_C4 demoLockedState ⟨[], [demoEncNote]⟩ rfl).1

/-! Section C6: upload failure semantics -/

/-- C6 counterexample: with a fully configured WebDAV backend and a
transport failure, `uploadToCloud` does not raise — the error is caught and
the caller receives `false` (the `syncInProgress` flag is cleared). -/
theorem claim_C6_counterexample :
    SyncService.uploadToCloud ⟨.webdav, some "http://w", some "u", some "p", none⟩ false
        TransportOutcome.netErr = (Except.ok false, false) ∧
    ¬ ∃ e, (SyncService.uploadToCloud ⟨.webdav, some "http://w", some "u", some "p", none⟩ false
        TransportOutcome.netErr).1 = Except.error e :=
  ⟨rfl, fun h => Except.noConfusion h.choose_spec⟩

/-- C6 (amended): `uploadToCloud` returns `false` when no backend is
configured; it never raises to the caller (every error thrown inside the
`try`, transport failures included, is caught and turned into `false`); and
whenever it set the in-progress flag it clears it before returning. -/
theorem claim_C6 (cfg : SyncConfig) (outcome : TransportOutcome) :
    (SyncService.uploadToCloud cfg false outcome).2 = false ∧
    (∀ e, (SyncService.uploadToCloud cfg false outcome).1 ≠ Except.error e) ∧
    (cfg.provider = SyncProvider.disabled →
      SyncService.uploadToCloud cfg false outcome = (Except.ok false, false)) := by
  unfold SyncService.uploadToCloud
  by_cases hp : cfg.provider = SyncProvider.disabled
  · simp [hp]
  · cases hb : uploadBackend cfg outcome <;> simp [hp, hb]

/-- C6 witness: the amended theorem at the disabled-backend configuration. -/
theorem claim_C6_witness :
    SyncService.uploadToCloud ⟨SyncProvider.disabled, none, none, none, none⟩ false
      TransportOutcome.netErr = (Except.ok false, false) :=
  (claim_C6 ⟨SyncProvider.disabled, none, none, none, none⟩ TransportOutcome.netErr).2.2 rfl

/-! Section C7: folder cascade delete -/

/-- C7 (confirmed): after `deleteFolder name` the stored document has no
folder entry named `name` and no note whose stored folder field is `name`;
and in the concrete scenario `createFolder "F"`, `createNote "t" "c" "F"`,
`deleteFolder "F"`, the folder listing no longer contains `"F"` and no
listed note is in folder `"F"`. -/
theorem claim_C7 :
    (∀ (s : EncryptedStorage) (name : String),
      (∀ f ∈ (NotesManager.deleteFolder s name).folders, f.name ≠ name) ∧
      (∀ n ∈ (NotesManager.deleteFolder s name).notes, n.folder ≠ some name)) ∧
    (∃ s1 r,
      NotesManager.createFolder ⟨[], []⟩ "F" 1 = .ok s1 ∧
      NotesManager.createNote demoState s1 "t" "c" "F" 2 1 2 = .ok r ∧
      (NotesManager.getFolders (NotesManager.deleteFolder r.2 "F")).all
        (fun f => f.name ≠ "F") ∧
      (NotesManager.getAllNotes demoState (NotesManager.deleteFolder r.2 "F")).all
        (fun n => n.folder ≠ "F")) := by
  constructor
  · intro s name
    constructor
    · intro f hf
      simpa using (List.mem_filter.1 hf).2
    · intro n hn
      simpa using (List.mem_filter.1 hn).2
  · refine ⟨⟨[⟨"F", 1⟩], []⟩,
      (⟨"2", "F", "t", "c", 2, 2⟩,
       ⟨[⟨"F", 1⟩], [⟨"2", some "F", ⟨1, "k", "t"⟩, ⟨2, "k", "c"⟩, 2, 2⟩]⟩), ?_, ?_, ?_, ?_⟩
    · rfl
    · rfl
    · decide
    · decide

/-! Section C10: folder fallback on read -/

/-- C10 (confirmed): a stored note whose plaintext folder field is absent
or empty is returned by `getNote` and `getAllNotes` with folder
`"default"`; the stored document is not written by either read path. -/
theorem claim_C10 (st : EncryptionState) (u k : String) (s : EncryptedStorage)
    (e : EncryptedNote) (id : String)
    (hu : st.currentUser = some u) (hk : lookupPassword st.userPasswords u = some k)
    (hfind : findEncNoteById s.notes id = some e)
    (htk : e.encryptedTitle.key = k) (hck : e.encryptedContent.key = k)
    (htt : e.encryptedTitle.text ≠ "") (hct : e.encryptedContent.text ≠ "")
    (hf : e.folder = none ∨ e.folder = some "") :
    NotesManager.getNote st s id =
      .ok (some ⟨e.id, "default", e.encryptedTitle.text, e.encryptedContent.text,
                 e.createdAt, e.updatedAt⟩) ∧
    (⟨e.id, "default", e.encryptedTitle.text, e.encryptedContent.text,
      e.createdAt, e.updatedAt⟩ : Note) ∈ NotesManager.getAllNotes st s := by
  have hview : viewFolder e.folder = "default" := by
    rcases hf with h | h <;> simp [h, viewFolder]
  have hdec := decryptNote_of_active hu hk htk hck htt hct
  rw [hview] at hdec
  constructor
  · simp [NotesManager.getNote, hasPassword_of_active hu hk, hfind, hdec]
  · simp only [NotesManager.getAllNotes, hasPassword_of_active hu hk, if_true]
    exact List.mem_filterMap.2 ⟨e, findEncNoteById_mem hfind, hdec⟩

/-- C10 witness: a concrete stored note with empty folder field is listed
and fetched with folder `"default"`. -/
theorem claim_C10_witness :
    NotesManager.getNote demoState ⟨[], [⟨"9", some "", ⟨1, "k", "t"⟩, ⟨2, "k", "c"⟩, 3, 4⟩]⟩
        "9" = .ok (some ⟨"9", "default", "t", "c", 3, 4⟩) ∧
    (⟨"9", "default", "t", "c", 3, 4⟩ : Note) ∈
      NotesManager.getAllNotes demoState
        ⟨[], [⟨"9", some "", ⟨1, "k", "t"⟩, ⟨2, "k", "c"⟩, 3, 4⟩]⟩ :=
  claim_C10 demoState "u" "k" ⟨[], [⟨"9", some "", ⟨1, "k", "t"⟩, ⟨2, "k", "c"⟩, 3, 4⟩]⟩
    ⟨"9", some "", ⟨1, "k", "t"⟩, ⟨2, "k", "c"⟩, 3, 4⟩ "9" rfl rfl (by decide) rfl rfl
    (by decide) (by decide) (Or.inr rfl)

/-! Section Map lemmas for the smart-merge algorithm -/

theorem mapGet_mapSet (m : List (String × EncryptedNote)) (k k' : String) (v : EncryptedNote) :
    mapGet (mapSet m k v) k' = if k' = k then some v else mapGet m k' := by
  induction m with
  | nil =>
    show (if k = k' then some v else none) = if k' = k then some v else mapGet [] k'
    by_cases h : k' = k
    · rw [if_pos h.symm, if_pos h]
    · rw [if_neg (fun hh => h hh.symm), if_neg h]
      rfl
  | cons p rest ih =>
    by_cases hp : p.1 = k
    · by_cases h : k' = k
      · subst h
        simp [mapSet, mapGet, hp]
      · have h2 : ¬ (k = k') := fun hh => h hh.symm
        simp [mapSet, mapGet, hp, h, h2]
    · by_cases h : k' = k
      · subst h
        simp [mapSet, mapGet, hp, ih]
      · simp [mapSet, mapGet, hp, ih, h]

theorem seedLocalNotes_get_of_forall_ne (ns : List EncryptedNote)
    (m : List (String × EncryptedNote)) (k : String) (h : ∀ n ∈ ns, n.id ≠ k) :
    mapGet (seedLocalNotes m ns) k = mapGet m k := by
  induction ns generalizing m with
  | nil => rfl
  | cons n rest ih =>
    show mapGet (seedLocalNotes (mapSet m n.id n) rest) k = mapGet m k
    rw [ih (mapSet m n.id n) (fun x hx => h x (List.mem_cons_of_mem n hx)),
      mapGet_mapSet, if_neg (fun hh => h n (List.mem_cons_self n rest) hh.symm)]

theorem seedLocalNotes_get_of_mem (ns : List EncryptedNote)
    (m : List (String × EncryptedNote)) (hnd : (ns.map (fun n => n.id)).Nodup)
    (ln : EncryptedNote) (hln : ln ∈ ns) :
    mapGet (seedLocalNotes m ns) ln.id = some ln := by
  induction ns generalizing m with
  | nil => exact absurd hln (List.not_mem_nil ln)
  | cons n rest ih =>
    rw [List.map_cons, List.nodup_cons] at hnd
    rcases List.mem_cons.1 hln with h | h
    · subst h
      show mapGet (seedLocalNotes (mapSet m ln.id ln) rest) ln.id = some ln
      rw [seedLocalNotes_get_of_forall_ne rest _ ln.id
          (fun x hx hxid => hnd.1 (hxid ▸ List.mem_map_of_mem (fun n => n.id) hx)),
        mapGet_mapSet, if_pos rfl]
    · exact ih (mapSet m n.id n) hnd.2 h

theorem mergeStep_eq_of_get_none {m : List (String × EncryptedNote)} {n : EncryptedNote}
    (hg : mapGet m n.id = none) : mergeStep m n = mapSet m n.id n := by
  unfold mergeStep
  rw [hg]

theorem mergeStep_eq_of_get_some {m : List (String × EncryptedNote)} {n ln : EncryptedNote}
    (hg : mapGet m n.id = some ln) :
    mergeStep m n = if ln.updatedAt < n.updatedAt then mapSet m n.id n else m := by
  unfold mergeStep
  rw [hg]

theorem mapGet_mergeStep_of_ne (m : List (String × EncryptedNote)) (n : EncryptedNote)
    (k : String) (hne : k ≠ n.id) : mapGet (mergeStep m n) k = mapGet m k := by
  cases hg : mapGet m n.id with
  | none => rw [mergeStep_eq_of_get_none hg, mapGet_mapSet, if_neg hne]
  | some localNote =>
    rw [mergeStep_eq_of_get_some hg]
    by_cases hlt : localNote.updatedAt < n.updatedAt
    · rw [if_pos hlt, mapGet_mapSet, if_neg hne]
    · rw [if_neg hlt]

theorem mergeCloudNotes_get_of_forall_ne (ns : List EncryptedNote)
    (m : List (String × EncryptedNote)) (k : String) (h : ∀ n ∈ ns, n.id ≠ k) :
    mapGet (mergeCloudNotes m ns) k = mapGet m k := by
  induction ns generalizing m with
  | nil => rfl
  | cons n rest ih =>
    show mapGet (mergeCloudNotes (mergeStep m n) rest) k = mapGet m k
    rw [ih (mergeStep m n) (fun x hx => h x (List.mem_cons_of_mem n hx)),
      mapGet_mergeStep_of_ne m n k (fun hh => h n (List.mem_cons_self n rest) hh.symm)]

theorem mergeCloudNotes_get_of_get_none (ns : List EncryptedNote)
    (m : List (String × EncryptedNote)) (hnd : (ns.map (fun n => n.id)).Nodup)
    (cn : EncryptedNote) (hcn : cn ∈ ns) (hg : mapGet m cn.id = none) :
    mapGet (mergeCloudNotes m ns) cn.id = some cn := by
  induction ns generalizing m with
  | nil => exact absurd hcn (List.not_mem_nil cn)
  | cons n rest ih =>
    rw [List.map_cons, List.nodup_cons] at hnd
    rcases List.mem_cons.1 hcn with h | h
    · subst h
      show mapGet (mergeCloudNotes (mergeStep m cn) rest) cn.id = some cn
      rw [mergeCloudNotes_get_of_forall_ne rest _ cn.id
          (fun x hx hxid => hnd.1 (hxid ▸ List.mem_map_of_mem (fun n => n.id) hx)),
        mergeStep_eq_of_get_none hg, mapGet_mapSet, if_pos rfl]
    · have hne : cn.id ≠ n.id :=
        fun hh => hnd.1 (hh ▸ List.mem_map_of_mem (fun n => n.id) h)
      show mapGet (mergeCloudNotes (mergeStep m n) rest) cn.id = some cn
      exact ih (mergeStep m n) hnd.2 h
        (by rw [mapGet_mergeStep_of_ne m n cn.id hne]; exact hg)

theorem mergeCloudNotes_get_of_get_some (ns : List EncryptedNote)
    (m : List (String × EncryptedNote)) (hnd : (ns.map (fun n => n.id)).Nodup)
    (cn ln : EncryptedNote) (hcn : cn ∈ ns) (hg : mapGet m cn.id = some ln) :
    mapGet (mergeCloudNotes m ns) cn.id =
      if ln.updatedAt < cn.updatedAt then some cn else some ln := by
  induction ns generalizing m with
  | nil => exact absurd hcn (List.not_mem_nil cn)
  | cons n rest ih =>
    rw [List.map_cons, List.nodup_cons] at hnd
    rcases List.mem_cons.1 hcn with h | h
    · subst h
      show mapGet (mergeCloudNotes (mergeStep m cn) rest) cn.id = _
      rw [mergeCloudNotes_get_of_forall_ne rest _ cn.id
          (fun x hx hxid => hnd.1 (hxid ▸ List.mem_map_of_mem (fun n => n.id) hx)),
        mergeStep_eq_of_get_some hg]
      by_cases hlt : ln.updatedAt < cn.updatedAt
      · rw [if_pos hlt, if_pos hlt, mapGet_mapSet, if_pos rfl]
      · rw [if_neg hlt, if_neg hlt]
        exact hg
    · have hne : cn.id ≠ n.id :=
        fun hh => hnd.1 (hh ▸ List.mem_map_of_mem (fun n => n.id) h)
      show mapGet (mergeCloudNotes (mergeStep m n) rest) cn.id = _
      exact ih (mergeStep m n) hnd.2 h
        (by rw [mapGet_mergeStep_of_ne m n cn.id hne]; exact hg)

/-- Invariant of the merged-notes map: each entry's key is its note's id. -/
def mapKeysWF (m : List (String × EncryptedNote)) : Prop :=
  ∀ p ∈ m, p.2.id = p.1

theorem mapKeysWF_nil : mapKeysWF [] := fun p hp => absurd hp (List.not_mem_nil p)

theorem mapKeysWF_mapSet {m : List (String × EncryptedNote)} (h : mapKeysWF m)
    {k : String} {v : EncryptedNote} (hv : v.id = k) : mapKeysWF (mapSet m k v) := by
  induction m with
  | nil =>
    intro p hp
    simp [mapSet] at hp
    simp [hp, hv]
  | cons q rest ih =>
    intro p hp
    by_cases hq : q.1 = k
    · simp [mapSet, hq] at hp
      rcases hp with hp | hp
      · simp [hp, hv]
      · exact h p (List.mem_cons_of_mem q hp)
    · simp [mapSet, hq] at hp
      rcases hp with hp | hp
      · exact h p (hp ▸ List.mem_cons_self q rest)
      · exact ih (fun x hx => h x (List.mem_cons_of_mem q hx)) p hp

theorem mapKeysWF_mergeStep {m : List (String × EncryptedNote)} (h : mapKeysWF m)
    (n : EncryptedNote) : mapKeysWF (mergeStep m n) := by
  cases hg : mapGet m n.id with
  | none =>
    rw [mergeStep_eq_of_get_none hg]
    exact mapKeysWF_mapSet h rfl
  | some localNote =>
    rw [mergeStep_eq_of_get_some hg]
    by_cases hlt : localNote.updatedAt < n.updatedAt
    · rw [if_pos hlt]
      exact mapKeysWF_mapSet h rfl
    · rw [if_neg hlt]
      exact h

theorem mapKeysWF_seedLocalNotes (ns : List EncryptedNote)
    {m : List (String × EncryptedNote)} (h : mapKeysWF m) :
    mapKeysWF (seedLocalNotes m ns) := by
  induction ns generalizing m with
  | nil => exact h
  | cons n rest ih => exact ih (mapKeysWF_mapSet h rfl)

theorem mapKeysWF_mergeCloudNotes (ns : List EncryptedNote)
    {m : List (String × EncryptedNote)} (h : mapKeysWF m) :
    mapKeysWF (mergeCloudNotes m ns) := by
  induction ns generalizing m with
  | nil => exact h
  | cons n rest ih => exact ih (mapKeysWF_mergeStep h n)

theorem values_find_eq_mapGet (m : List (String × EncryptedNote)) (h : mapKeysWF m)
    (k : String) :
    findEncNoteById (m.map (fun p => p.2)) k = mapGet m k := by
  induction m with
  | nil => rfl
  | cons p rest ih =>
    have hp : p.2.id = p.1 := h p (List.mem_cons_self p rest)
    show (if p.2.id = k then some p.2 else findEncNoteById (rest.map (fun p => p.2)) k) = _
    rw [hp, ih (fun x hx => h x (List.mem_cons_of_mem p hx))]
    rfl

theorem mapGet_mem_values {m : List (String × EncryptedNote)} {k : String}
    {v : EncryptedNote} (h : mapGet m k = some v) : v ∈ m.map (fun p => p.2) := by
  induction m with
  | nil => exact absurd h (by simp [mapGet])
  | cons p rest ih =>
    by_cases hp : p.1 = k
    · simp [mapGet, hp] at h
      simp [h]
    · simp [mapGet, hp] at h
      simp [ih h]

/-! Section C2: last-writer-wins per note -/

/-- C2 (confirmed): for a note id present on both sides (local and cloud
documents with duplicate-free ids), the merged document's entry for that id
is the cloud version exactly when its `updatedAt` is strictly greater than
the local one, and the local version otherwise — in particular ties keep
the local version. -/
theorem claim_C2 (localData cloudData : EncryptedStorage) (now : Nat)
    (ln cn : EncryptedNote)
    (hlnd : (localData.notes.map (fun n => n.id)).Nodup)
    (hcnd : (cloudData.notes.map (fun n => n.id)).Nodup)
    (hl : ln ∈ localData.notes) (hc : cn ∈ cloudData.notes) (hid : ln.id = cn.id) :
    findEncNoteById (SyncService.smartMerge localData cloudData now).notes cn.id =
      some (if ln.updatedAt < cn.updatedAt then cn else ln) := by
  have hWF : mapKeysWF (mergeCloudNotes (seedLocalNotes [] localData.notes) cloudData.notes) :=
    mapKeysWF_mergeCloudNotes _ (mapKeysWF_seedLocalNotes _ mapKeysWF_nil)
  have hseed : mapGet (seedLocalNotes [] localData.notes) cn.id = some ln := by
    rw [← hid]
    exact seedLocalNotes_get_of_mem localData.notes [] hlnd ln hl
  show findEncNoteById
    ((mergeCloudNotes (seedLocalNotes [] localData.notes) cloudData.notes).map
      (fun p => p.2)) cn.id = _
  rw [values_find_eq_mapGet _ hWF,
    mergeCloudNotes_get_of_get_some cloudData.notes _ hcnd cn ln hc hseed]
  by_cases hlt : ln.updatedAt < cn.updatedAt
  · rw [if_pos hlt, if_pos hlt]
  · rw [if_neg hlt, if_neg hlt]

/-- A local note for the C2 witness (`updatedAt = 100`). -/
def demoLocalNote : EncryptedNote := ⟨"1", some "d", ⟨1, "k", "t"⟩, ⟨2, "k", "c"⟩, 0, 100⟩

/-- A cloud note with the same id for the C2 witness (`updatedAt = 200`). -/
def demoCloudNote : EncryptedNote := ⟨"1", some "d", ⟨3, "k", "t2"⟩, ⟨4, "k", "c2"⟩, 0, 200⟩

/-- C2 witness: with `updatedAt` 100 locally and 200 remotely, the merge
keeps the cloud version of note `"1"`. -/
theorem claim_C2_witness :
    findEncNoteById
      (SyncService.smartMerge ⟨[], [demoLocalNote]⟩ ⟨[], [demoCloudNote]⟩ 7).notes
      demoCloudNote.id = some demoCloudNote :=
  (claim_C2 ⟨[], [demoLocalNote]⟩ ⟨[], [demoCloudNote]⟩ 7 demoLocalNote demoCloudNote
    (by decide) (by decide) (by decide) (by decide) rfl).trans (by decide)

/-! Section C9: no deletion propagation -/

/-- C9 (confirmed): a note id absent from the local document but present in
the cloud document (with duplicate-free cloud ids) appears in the merged
result — local deletions are undone by merge. -/
theorem claim_C9 (localData cloudData : EncryptedStorage) (now : Nat) (cn : EncryptedNote)
    (hcnd : (cloudData.notes.map (fun n => n.id)).Nodup) (hc : cn ∈ cloudData.notes)
    (habs : ∀ ln ∈ localData.notes, ln.id ≠ cn.id) :
    cn ∈ (SyncService.smartMerge localData cloudData now).notes := by
  have hseed : mapGet (seedLocalNotes [] localData.notes) cn.id = none := by
    rw [seedLocalNotes_get_of_forall_ne localData.notes [] cn.id habs]
    rfl
  have hget : mapGet (mergeCloudNotes (seedLocalNotes [] localData.notes)
      cloudData.notes) cn.id = some cn :=
    mergeCloudNotes_get_of_get_none cloudData.notes (seedLocalNotes [] localData.notes)
      hcnd cn hc hseed
  show cn ∈ (mergeCloudNotes (seedLocalNotes [] localData.notes) cloudData.notes).map
    (fun p => p.2)
  exact mapGet_mem_values hget

/-- C9 witness: a cloud-only note appears after merging with an empty local
document. -/
theorem claim_C9_witness :
    demoCloudNote ∈ (SyncService.smartMerge ⟨[], []⟩ ⟨[], [demoCloudNote]⟩ 7).notes :=
  claim_C9 ⟨[], []⟩ ⟨[], [demoCloudNote]⟩ 7 demoCloudNote (by decide) (by decide)
    (fun ln hln => absurd hln (List.not_mem_nil ln))

/-! Section C5: title uniqueness under createNote -/

/-- A stored note as `createNote` under key `k` produces it: encrypted
under `k`, with nonempty title/content plaintext and a nonempty folder. -/
def noteWF (k : String) (e : EncryptedNote) : Prop :=
  e.encryptedTitle.key = k ∧ e.encryptedContent.key = k ∧
  e.encryptedTitle.text ≠ "" ∧ e.encryptedContent.text ≠ "" ∧
  ∃ f, e.folder = some f ∧ f ≠ ""

/-- Every stored note is well formed for key `k`. -/
def storageWF (k : String) (s : EncryptedStorage) : Prop :=
  ∀ e ∈ s.notes, noteWF k e

/-- No two stored notes share the `(folder, title-plaintext)` pair. -/
def pairsDistinct (ns : List EncryptedNote) : Prop :=
  ns.Pairwise
    (fun a b => ¬(a.folder = b.folder ∧ a.encryptedTitle.text = b.encryptedTitle.text))

/-- The combined `createNote` invariant. -/
def storeInv (k : String) (s : EncryptedStorage) : Prop :=
  storageWF k s ∧ pairsDistinct s.notes

theorem decryptNote_of_WF {st : EncryptionState} {u k : String}
    (hu : st.currentUser = some u) (hk : lookupPassword st.userPasswords u = some k)
    {e : EncryptedNote} (hWF : noteWF k e) :
    ∃ f, e.folder = some f ∧ f ≠ "" ∧
      decryptNote st e =
        some ⟨e.id, f, e.encryptedTitle.text, e.encryptedContent.text,
              e.createdAt, e.updatedAt⟩ := by
  obtain ⟨htk, hck, htt, hct, f, hf, hfne⟩ := hWF
  refine ⟨f, hf, hfne, ?_⟩
  rw [decryptNote_of_active hu hk htk hck htt hct]
  simp [viewFolder, hf, hfne]

theorem hasDuplicateTitle_eq_true_iff (ns : List Note) (folder title : String) :
    hasDuplicateTitle ns folder title = true ↔
      ∃ n ∈ ns, n.folder = folder ∧ n.title = title := by
  induction ns with
  | nil => simp [hasDuplicateTitle]
  | cons n rest ih =>
    by_cases h : n.folder = folder ∧ n.title = title
    · simp [hasDuplicateTitle, h]
    · simp only [hasDuplicateTitle, if_neg h, ih, List.mem_cons]
      constructor
      · rintro ⟨x, hx, hp⟩
        exact ⟨x, Or.inr hx, hp⟩
      · rintro ⟨x, hx | hx, hp⟩
        · exact absurd (hx ▸ hp) h
        · exact ⟨x, hx, hp⟩

theorem view_mem_getAllNotes {st : EncryptionState} {u k : String}
    (hu : st.currentUser = some u) (hk : lookupPassword st.userPasswords u = some k)
    {s : EncryptedStorage} {e : EncryptedNote} (he : e ∈ s.notes) {n : Note}
    (hdec : decryptNote st e = some n) : n ∈ NotesManager.getAllNotes st s := by
  simp only [NotesManager.getAllNotes, hasPassword_of_active hu hk, if_true]
  exact List.mem_filterMap.2 ⟨e, he, hdec⟩

theorem dup_check_true_of_store {st : EncryptionState} {u k : String}
    (hu : st.currentUser = some u) (hk : lookupPassword st.userPasswords u = some k)
    {s : EncryptedStorage} (hWF : storageWF k s) {e : EncryptedNote} (he : e ∈ s.notes)
    {folder title : String} (hf : e.folder = some folder)
    (ht : e.encryptedTitle.text = title) :
    hasDuplicateTitle (NotesManager.getAllNotes st s) folder title = true := by
  obtain ⟨f, hf2, hfne, hdec⟩ := decryptNote_of_WF hu hk (hWF e he)
  have hfeq : f = folder := by
    rw [hf] at hf2
    exact (Option.some.inj hf2).symm
  subst hfeq
  exact (hasDuplicateTitle_eq_true_iff _ _ _).2
    ⟨_, view_mem_getAllNotes hu hk he hdec, rfl, ht⟩

theorem store_no_dup_of_check_false {st : EncryptionState} {u k : String}
    (hu : st.currentUser = some u) (hk : lookupPassword st.userPasswords u = some k)
    {s : EncryptedStorage} (hWF : storageWF k s) {folder title : String}
    (hfalse : hasDuplicateTitle (NotesManager.getAllNotes st s) folder title = false) :
    ∀ e ∈ s.notes, ¬(e.folder = some folder ∧ e.encryptedTitle.text = title) := by
  intro e he hpair
  have htrue := dup_check_true_of_store hu hk hWF he hpair.1 hpair.2
  rw [hfalse] at htrue
  exact Bool.noConfusion htrue

theorem createNote_rejects_duplicate {st : EncryptionState} {u k : String}
    (hu : st.currentUser = some u) (hk : lookupPassword st.userPasswords u = some k)
    {s : EncryptedStorage} (hWF : storageWF k s) {e : EncryptedNote} (he : e ∈ s.notes)
    {folder title : String} (hf : e.folder = some folder)
    (ht : e.encryptedTitle.text = title) (content : String) (now n1 n2 : Nat) :
    NotesManager.createNote st s title content folder now n1 n2 =
      .error .duplicateTitle := by
  have hdup := dup_check_true_of_store hu hk hWF he hf ht
  simp [NotesManager.createNote, hasPassword_of_active hu hk, hdup]

theorem createNote_ok_cases {st : EncryptionState} {u k : String}
    (hu : st.currentUser = some u) (hk : lookupPassword st.userPasswords u = some k)
    (s : EncryptedStorage) (title content folder : String) (now n1 n2 : Nat) :
    NotesManager.createNote st s title content folder now n1 n2 =
      .error .duplicateTitle ∨
    (NotesManager.createNote st s title content folder now n1 n2 =
      .ok (⟨toString now, folder, title, content, now, now⟩,
           ⟨s.folders,
            s.notes ++ [⟨toString now, some folder, ⟨n1, k, title⟩, ⟨n2, k, content⟩,
                        now, now⟩]⟩) ∧
     hasDuplicateTitle (NotesManager.getAllNotes st s) folder title = false) := by
  cases hdup : hasDuplicateTitle (NotesManager.getAllNotes st s) folder title with
  | true =>
    left
    simp [NotesManager.createNote, hasPassword_of_active hu hk, hdup]
  | false =>
    right
    refine ⟨?_, rfl⟩
    simp [NotesManager.createNote, hasPassword_of_active hu hk, hdup,
      encrypt_of_active hu hk, aesEncrypt]

theorem createNote_preserves_inv {st : EncryptionState} {u k : String}
    (hu : st.currentUser = some u) (hk : lookupPassword st.userPasswords u = some k)
    {s : EncryptedStorage} (hInv : storeInv k s) {title content folder : String}
    (hfolder : folder ≠ "") (htitle : title ≠ "") (hcontent : content ≠ "")
    (now n1 n2 : Nat) :
    ∀ r, NotesManager.createNote st s title content folder now n1 n2 = .ok r →
      storeInv k r.2 := by
  intro r hr
  rcases createNote_ok_cases hu hk s title content folder now n1 n2 with hcase | ⟨heq, hdup⟩
  · rw [hr] at hcase
    exact Except.noConfusion hcase
  · rw [heq] at hr
    have hra := Except.ok.inj hr
    rw [← hra]
    constructor
    · intro e he
      rcases List.mem_append.1 he with he | he
      · exact hInv.1 e he
      · have he2 : e = ⟨toString now, some folder, ⟨n1, k, title⟩, ⟨n2, k, content⟩,
            now, now⟩ := by simpa using he
        subst he2
        exact ⟨rfl, rfl, htitle, hcontent, folder, rfl, hfolder⟩
    · show List.Pairwise _ (s.notes ++ [_])
      rw [List.pairwise_append]
      refine ⟨hInv.2, by simp, ?_⟩
      intro a ha b hb
      have hb2 : b = ⟨toString now, some folder, ⟨n1, k, title⟩, ⟨n2, k, content⟩,
          now, now⟩ := by simpa using hb
      subst hb2
      intro hpair
      exact store_no_dup_of_check_false hu hk hInv.1 hdup a ha ⟨hpair.1, hpair.2⟩

theorem runCreates_inv {st : EncryptionState} {u k : String}
    (hu : st.currentUser = some u) (hk : lookupPassword st.userPasswords u = some k)
    (calls : List CreateCall)
    (hcalls : ∀ c ∈ calls, c.folder ≠ "" ∧ c.title ≠ "" ∧ c.content ≠ "")
    (s : EncryptedStorage) (hInv : storeInv k s) :
    storeInv k (runCreates st s calls) := by
  induction calls generalizing s with
  | nil => exact hInv
  | cons c rest ih =>
    have hc := hcalls c (List.mem_cons_self c rest)
    have htail : ∀ x ∈ rest, x.folder ≠ "" ∧ x.title ≠ "" ∧ x.content ≠ "" :=
      fun x hx => hcalls x (List.mem_cons_of_mem c hx)
    cases hcr : NotesManager.createNote st s c.title c.content c.folder c.now c.n1 c.n2 with
    | ok r =>
      have hstep : runCreates st s (c :: rest) = runCreates st r.2 rest := by
        simp only [runCreates, hcr]
      rw [hstep]
      exact ih htail r.2
        (createNote_preserves_inv hu hk hInv hc.1 hc.2.1 hc.2.2 c.now c.n1 c.n2 r hcr)
    | error err =>
      have hstep : runCreates st s (c :: rest) = runCreates st s rest := by
        simp only [runCreates, hcr]
      rw [hstep]
      exact ih htail s hInv

/-- C5 (amended): under a fixed active session with key `k`, for any
sequence of `createNote` calls whose folder, title and content arguments
are all nonempty, no two notes in the resulting store share the same
`(folder, title)` pair; and a `createNote` call whose `(folder, title)`
pair matches an existing well-formed stored note throws
`DuplicateTitleError` (the embedding returns the unchanged caller storage
with the error, so the document is not modified). -/
theorem claim_C5 (st : EncryptionState) (u k : String)
    (hu : st.currentUser = some u) (hk : lookupPassword st.userPasswords u = some k)
    (calls : List CreateCall)
    (hcalls : ∀ c ∈ calls, c.folder ≠ "" ∧ c.title ≠ "" ∧ c.content ≠ "") :
    pairsDistinct (runCreates st ⟨[], []⟩ calls).notes ∧
    (∀ (s : EncryptedStorage) (e : EncryptedNote) (title content folder : String)
        (now n1 n2 : Nat), storageWF k s → e ∈ s.notes → e.folder = some folder →
      e.encryptedTitle.text = title →
      NotesManager.createNote st s title content folder now n1 n2 =
        .error .duplicateTitle) := by
  constructor
  · exact (runCreates_inv hu hk calls hcalls ⟨[], []⟩
      ⟨fun e he => absurd he (List.not_mem_nil e), List.Pairwise.nil⟩).2
  · intro s e title content folder now n1 n2 hWF he hf ht
    exact createNote_rejects_duplicate hu hk hWF he hf ht content now n1 n2

/-- C5 witness: the amended theorem at a concrete session and a concrete
one-call sequence. -/
theorem claim_C5_witness :
    pairsDistinct (runCreates demoState ⟨[], []⟩ [⟨"a", "b", "f", 1, 1, 2⟩]).notes :=
  (claim_C5 demoState "u" "k" rfl rfl [⟨"a", "b", "f", 1, 1, 2⟩] (by decide)).1

/-- C5 counterexample: two `createNote "t" "c" ""` calls both succeed — the
duplicate check compares the raw folder argument `""` against the
`"default"` fallback applied on read, so the second call sees no duplicate.
The store then holds two notes with the identical `(folder, title)` pair
`(some "", "t")` and no `DuplicateTitleError` was raised. -/
theorem claim_C5_counterexample :
    (runCreates demoState ⟨[], []⟩
        [⟨"t", "c", "", 1, 1, 2⟩, ⟨"t", "c", "", 2, 3, 4⟩]).notes.map
      (fun e => (e.folder, e.encryptedTitle.text)) = [(some "", "t"), (some "", "t")] ∧
    NotesManager.createNote demoState
        (runCreates demoState ⟨[], []⟩ [⟨"t", "c", "", 1, 1, 2⟩]) "t" "c" "" 2 3 4 ≠
      .error .duplicateTitle := by
  refine ⟨by decide, fun h => Except.noConfusion h⟩

/-- C7 witness: the general cascade property applied at a concrete
document and folder name. -/
theorem claim_C7_witness :
    (⟨"F", 1⟩ : Folder) ∉ (NotesManager.deleteFolder ⟨[⟨"F", 1⟩], []⟩ "F").folders :=
  fun hmem => (claim_C7.1 ⟨[⟨"F", 1⟩], []⟩ "F").1 ⟨"F", 1⟩ hmem rfl

/-- C8 witness: the legacy-array load applied at a concrete one-note
array. -/
theorem claim_C8_witness :
    NotesManager.loadStorage (.parsed (.arr [demoEncNote])) = ⟨[], [demoEncNote]⟩ :=
  claim_C8 [demoEncNote]
